import Mathlib

/-!
Verification of `pokedex/db/load.py`, the CSV-to-database bulk loader and
dumper.  The Python source is shallowly embedded: each definition below
mirrors one function or code block of `load.py` (line numbers cited in the
doc comments).  Python dictionaries become association lists keyed by
column name, the SQLAlchemy session's visible effects (bulk inserts,
commits, individual inserts) are recorded in an explicit `LoadState`, and
Python exceptions become `Except` results carrying the state at the point
of failure (effects already committed remain recorded in that state).
-/

/-- A decoded cell value, the domain of the loader's Python values:
`None`, booleans, integers and (unicode) strings. -/
inductive Value
  | vnull
  | vbool (b : Bool)
  | vint (n : Int)
  | vstr (s : String)
deriving DecidableEq, Repr

/-- Python truthiness on `Value`: `None`, `False`, `0` and the empty
string are falsy; everything else is truthy.  This is the test applied by
`[_ for _ in foreign_ids if _]` on line 193 of `load.py`. -/
def truthy : Value → Bool
  | .vnull => false
  | .vbool b => b
  | .vint n => n != 0
  | .vstr s => s != ""

/-- A column as the loader sees it: its name, nullability, whether its
SQL type is `Boolean`, and whether one of its foreign keys references the
containing table itself (line 158 of `load.py`). -/
structure Column where
  name : String
  nullable : Bool
  isBool : Bool
  selfRef : Bool
deriving DecidableEq, Repr

/-- Load-direction codec, lines 172-184 of `load.py`: an empty string in
a nullable column means NULL; in a boolean column `"0"` means `False` and
anything else means `True`; otherwise the bytes are decoded as UTF-8 text
(text is already unicode in this model, so that step is the identity). -/
def decodeValue (column : Column) (value : String) : Value :=
  if column.nullable && value == "" then .vnull
  else if column.isBool then
    (if value == "0" then .vbool false else .vbool true)
  else .vstr value

/-- Dump-direction codec, lines 286-294 of `load.py`, with Python 2
equality semantics: `val == None` → empty text, `val == True` → `"1"`
(this also captures the integer `1`), `val == False` → `"0"` (also the
integer `0`), otherwise `unicode(val)` encoded as UTF-8. -/
def encodeValue : Value → String
  | .vnull => ""
  | .vbool true => "1"
  | .vbool false => "0"
  | .vint n => if n = 1 then "1" else if n = 0 then "0" else toString n
  | .vstr s => s

/-- `row_data`: a Python dict from column name to decoded value, modelled
as an association list (lookups are by key only). -/
abbrev Record := List (String × Value)

/-- Dict lookup `d[k]`, returning `none` where Python raises `KeyError`. -/
def rowLookup (r : Record) (k : String) : Option Value :=
  (r.find? (fun p => p.1 == k)).map (fun p => p.2)

/-- Dict assignment `d[k] = v`: replaces the value of an existing key,
otherwise adds the binding. -/
def dictInsert (r : Record) (k : String) (v : Value) : Record :=
  if r.any (fun p => p.1 == k) then
    r.map (fun p => if p.1 == k then (k, v) else p)
  else r ++ [(k, v)]

/-- `table_obj.c[column_name]`, `none` where Python raises `KeyError`. -/
def findColumn (cols : List Column) (name : String) : Option Column :=
  cols.find? (fun c => c.name == name)

/-- The loop of lines 170-187 of `load.py`: walk `zip(column_names, csvs)`
and store each decoded value under its column name.  The `.error` case is
the `KeyError` from `table_obj.c[column_name]` on an unknown header name. -/
def buildRowData (cols : List Column) : Record → List (String × String) → Except String Record
  | rd, [] => .ok rd
  | rd, (columnName, value) :: rest =>
    match findColumn cols columnName with
    | none => .error columnName
    | some column =>
        buildRowData cols (dictInsert rd columnName (decodeValue column value)) rest

/-- One input line becomes one fresh record (`row_data = {}` on line 168,
then the zip loop). -/
def buildRow (cols : List Column) (columnNames : List String) (csvs : List String) :
    Except String Record :=
  buildRowData cols [] (columnNames.zip csvs)

/-- The mutable state of one table's load: `deferred_rows` (line 152),
the keys of `seen_ids` (line 153), `new_rows` (line 161), plus the
session's visible history: each executed-and-committed bulk insert
(`flushes`) and each individual insert of the replay pass
(`singleInserts`). -/
structure LoadState where
  deferredRows : List (Record × List Value)
  seenIds : List Value
  newRows : List Record
  flushes : List (List Record)
  singleInserts : List Record
deriving DecidableEq, Repr

/-- Fresh state at the top of a table's loop (lines 152-161). -/
def initState : LoadState := ⟨[], [], [], [], []⟩

/-- `seen_ids[i] = 1`: dict-key insertion (membership is all that is ever
read back). -/
def markSeen (st : LoadState) (i : Value) : LoadState :=
  if i ∈ st.seenIds then st else { st with seenIds := st.seenIds ++ [i] }

/-- `insert_and_commit` (lines 162-165): execute one bulk insert covering
every buffered record, commit, and clear the buffer. -/
def insertAndCommit (st : LoadState) : LoadState :=
  { st with flushes := st.flushes ++ [st.newRows], newRows := [] }

/-- Lines 211-216: `new_rows.append(row_data)` followed by the batch
threshold check `if len(new_rows) >= 1000: insert_and_commit()`. -/
def pushRow (st : LoadState) (rd : Record) : LoadState :=
  let st' := { st with newRows := st.newRows ++ [rd] }
  if st'.newRows.length ≥ 1000 then insertAndCommit st' else st'

/-- Lines 156-159: the columns whose foreign keys point back at the table
being loaded. -/
def selfRefColumns (cols : List Column) : List Column :=
  cols.filter (fun c => c.selfRef)

/-- `[row_data[_.name] for _ in self_ref_columns]` (line 192); `.error`
is the `KeyError` on a record lacking one of those columns. -/
def fetchForeignIds (selfRefCols : List Column) (rd : Record) : Except String (List Value) :=
  match selfRefCols with
  | [] => .ok []
  | c :: rest =>
    match rowLookup rd c.name with
    | none => .error c.name
    | some v =>
      match fetchForeignIds rest rd with
      | .error k => .error k
      | .ok vs => .ok (v :: vs)

/-- Errors the loader can raise: `KeyError` from a dict/column lookup,
`NameError` from evaluating an unbound variable, and `StopIteration` from
`reader.next()` on an empty file.  Each is paired with the `LoadState` at
the moment it is raised, so already-committed effects stay observable. -/
inductive LoadErr
  | keyError (key : String)
  | nameError (name : String)
  | stopIteration
deriving DecidableEq, Repr

/-- Lines 189-216 of `load.py`, processing one decoded record.  If the
table has no self-referential columns the record is simply buffered.
Otherwise the dependency set is the *truthy* values of the
self-referential columns (line 193 keeps `_` only `if _`); an empty set
buffers the record after marking its `id` seen; a set fully contained in
`seen_ids` first flushes and commits the current batch, then marks seen
and buffers into the fresh batch; any other set defers the record
together with the set, marking nothing and buffering nothing. -/
def processRow (cols : List Column) (st : LoadState) (rd : Record) :
    Except (LoadErr × LoadState) LoadState :=
  let selfRefCols := selfRefColumns cols
  if selfRefCols.isEmpty then
    .ok (pushRow st rd)
  else
    match fetchForeignIds selfRefCols rd with
    | .error k => .error (.keyError k, st)
    | .ok vals =>
      let foreignIds := vals.filter truthy
      if foreignIds.isEmpty then
        match rowLookup rd "id" with
        | none => .error (.keyError "id", st)
        | some i => .ok (pushRow (markSeen st i) rd)
      else if foreignIds.all (fun v => decide (v ∈ st.seenIds)) then
        let st1 := insertAndCommit st
        match rowLookup rd "id" with
        | none => .error (.keyError "id", st1)
        | some i => .ok (pushRow (markSeen st1 i) rd)
      else
        .ok { st with deferredRows := st.deferredRows ++ [(rd, foreignIds)] }

/-- The `for csvs in reader` loop (lines 167-216): build each line's
record and feed it through `processRow`, stopping at the first error. -/
def processLines (cols : List Column) (header : List String) :
    LoadState → List (List String) → Except (LoadErr × LoadState) LoadState
  | st, [] => .ok st
  | st, line :: rest =>
    match buildRow cols header line with
    | .error k => .error (.keyError k, st)
    | .ok rd =>
      match processRow cols st rd with
      | .error e => .error e
      | .ok st' => processLines cols header st' rest

/-- The replay pass, lines 221-231 of `load.py`.  A deferred record whose
key set is now fully inside `seen_ids` is inserted individually and its
`id` marked seen.  Otherwise the source intends
`raise ValueError("Too many levels of self-reference!  Row was: " + str(row))`,
but `row` is not a variable bound anywhere in `load` (the record variable
is `row_data`), so evaluating the message raises
`NameError: global name 'row' is not defined` instead. -/
def replayDeferred (st : LoadState) :
    List (Record × List Value) → Except (LoadErr × LoadState) LoadState
  | [] => .ok st
  | (rd, foreignIds) :: rest =>
    if ¬ (∀ v ∈ foreignIds, v ∈ st.seenIds) then
      .error (.nameError "row", st)
    else
      let st1 := { st with singleInserts := st.singleInserts ++ [rd] }
      match rowLookup rd "id" with
      | none => .error (.keyError "id", st1)
      | some i => replayDeferred (markSeen st1 i) rest

/-- One table's whole data pass, lines 145-232 of `load.py`: read the
header (`reader.next()`, which raises `StopIteration` on an empty file),
stream the remaining lines, run the unconditional final
`insert_and_commit()` of line 218, then replay the deferred rows.  The
final `session.commit()` of line 232 adds no observable record here. -/
def loadTable (cols : List Column) (fileLines : List (List String)) :
    Except (LoadErr × LoadState) LoadState :=
  match fileLines with
  | [] => .error (.stopIteration, initState)
  | header :: dataLines =>
    match processLines cols header initState dataLines with
    | .error e => .error e
    | .ok st =>
      let st1 := insertAndCommit st
      replayDeferred st1 st1.deferredRows

/-- One regex token produced by `_wildcard_char_to_regex` (lines 16-24 of
`load.py`): `.?` for `?`, `.*` for `*`, and `re.escape(c)` — a literal —
for every other character. -/
inductive RTok
  | lit (c : Char)
  | anyOpt
  | anyStar
deriving DecidableEq, Repr

/-- `_wildcard_char_to_regex` (lines 16-24). -/
def wildcardCharToRegex (c : Char) : RTok :=
  if c = '?' then .anyOpt
  else if c = '*' then .anyStar
  else .lit c

/-- Matching a token list against a character list, the semantics of the
compiled anchored regex `^(?:...)$` applied by `regex.match`: `lit c`
consumes exactly `c`, `anyOpt` (`.?`) consumes zero or one character,
`anyStar` (`.*`) consumes any run of characters, and the whole input must
be consumed. -/
def rmatch : List RTok → List Char → Bool
  | [], [] => true
  | [], _ :: _ => false
  | .lit _ :: _, [] => false
  | .lit c :: ts, d :: ds => c == d && rmatch ts ds
  | .anyOpt :: ts, [] => rmatch ts []
  | .anyOpt :: ts, d :: ds => rmatch ts (d :: ds) || rmatch ts ds
  | .anyStar :: ts, [] => rmatch ts []
  | .anyStar :: ts, d :: ds => rmatch ts (d :: ds) || rmatch (.anyStar :: ts) ds
termination_by ts s => (s.length, ts.length)

/-- `os.path.split(glob)[1]`: everything after the last `/`. -/
def baseName (s : String) : String :=
  String.mk ((s.toList.reverse.takeWhile (fun c => c ≠ '/')).reverse)

/-- `os.path.splitext(filename)[0]` for a string without `/`: cut at the
last dot, unless every character before that dot is itself a dot (leading
dots are not an extension separator). -/
def splitExtRoot (s : String) : String :=
  let cs := s.toList
  match (List.range cs.length).filter (fun i => cs.getD i ' ' = '.') with
  | [] => s
  | is =>
    let j := is.foldl max 0
    if (cs.take j).any (fun c => c ≠ '.') then String.mk (cs.take j) else s

/-- `_wildcard_glob_to_regex` (lines 26-35): a glob containing a dot or a
path separator is first reduced to its base name with the extension
stripped; then every character is translated. -/
def wildcardGlobToRegex (glob : String) : List RTok :=
  let glob' :=
    if glob.toList.contains '.' || glob.toList.contains '/' then
      splitExtRoot (baseName glob)
    else glob
  glob'.toList.map wildcardCharToRegex

/-- `_wildcards_to_regex` (lines 37-44) followed by `regex.match` on a
name: the alternation `^(?:p1|p2|...)$` matches exactly when some
translated pattern matches the whole name. -/
def matchesAnyPattern (patterns : List String) (name : String) : Bool :=
  patterns.any (fun p => rmatch (wildcardGlobToRegex p) name.toList)

/-- Lines 110-114 of `load.py` (and 263-267 of `dump`): an empty selector
list (`if tables:` is false) selects every known table name, otherwise
the names are filtered by the compiled pattern regex. -/
def selectTableNames (patterns : List String) (names : List String) : List String :=
  if patterns.isEmpty then names
  else names.filter (matchesAnyPattern patterns)

/-- A table as the orchestrator sees it. -/
structure TableDef where
  name : String
  cols : List Column
deriving DecidableEq, Repr

/-- Lines 110-116: the selected subset of `metadata.tables`. -/
def selectedTables (allTables : List TableDef) (patterns : List String) : List TableDef :=
  if patterns.isEmpty then allTables
  else allTables.filter (fun t => matchesAnyPattern patterns t.name)

/-- Schema actions emitted by `load`. -/
inductive LoadAction
  | dropTable (name : String)
  | createTable (name : String)
  | loadData (name : String)
deriving DecidableEq, Repr

/-- Lines 110-132 of `load.py`: select, topologically sort (the sort
itself is SQLAlchemy's `sort_tables`, abstracted as a parameter), then —
when requested — drop in reversed order, create in forward order, and
load data in forward order. -/
def loadActions (sortTables : List TableDef → List TableDef)
    (allTables : List TableDef) (patterns : List String) (dropTables : Bool) :
    List LoadAction :=
  let tableObjs := sortTables (selectedTables allTables patterns)
  (if dropTables then tableObjs.reverse.map (fun t => LoadAction.dropTable t.name) else [])
    ++ tableObjs.map (fun t => LoadAction.createTable t.name)
    ++ tableObjs.map (fun t => LoadAction.loadData t.name)

/-- The tables dropped by an action trace, in order. -/
def droppedNames (acts : List LoadAction) : List String :=
  acts.filterMap (fun a => match a with | .dropTable n => some n | _ => none)

/-- The tables created by an action trace, in order. -/
def createdNames (acts : List LoadAction) : List String :=
  acts.filterMap (fun a => match a with | .createTable n => some n | _ => none)

/-- The tables data-loaded by an action trace, in order. -/
def loadedNames (acts : List LoadAction) : List String :=
  acts.filterMap (fun a => match a with | .loadData n => some n | _ => none)

/-- The status token printed for a table in verbose mode (lines 68, 142,
234 of `load.py`). -/
inductive TableStatus
  | ok
  | missing
deriving DecidableEq, Repr

/-- The text of each status token. -/
def statusToken : TableStatus → String
  | .ok => "ok"
  | .missing => "missing?"

/-- Lines 136-143: open `{directory}/{tableName}.csv`; `IOError` (the
file is absent, modelled as `none`) reports `missing?` and leaves the
table untouched; otherwise the table's data pass runs. -/
def loadTableFile (files : String → Option (List (List String))) (t : TableDef) :
    Except (LoadErr × LoadState) (TableStatus × LoadState) :=
  match files t.name with
  | none => .ok (.missing, initState)
  | some fileLines =>
    match loadTable t.cols fileLines with
    | .error e => .error e
    | .ok st => .ok (.ok, st)

/-- The `for table_obj in table_objs` loop of lines 132-234: each table is
loaded in turn; a missing file skips to the next table, while a raised
error aborts the whole load. -/
def loadAllData (files : String → Option (List (List String))) :
    List TableDef → Except (LoadErr × LoadState) (List (String × TableStatus × LoadState))
  | [] => .ok []
  | t :: ts =>
    match loadTableFile files t with
    | .error e => .error e
    | .ok (s, st) =>
      match loadAllData files ts with
      | .error e => .error e
      | .ok rest => .ok ((t.name, s, st) :: rest)

/-- A total order on `Value`, modelling the database's `ORDER BY` on a
primary-key column: values of one constructor compare by payload, and
distinct constructors are ranked (the loader only ever orders values of a
single column type, so the cross-constructor ranking is a free choice of
the model). -/
def valueLe : Value → Value → Bool
  | .vnull, _ => true
  | _, .vnull => false
  | .vbool x, .vbool y => !x || y
  | .vbool _, _ => true
  | _, .vbool _ => false
  | .vint m, .vint n => m ≤ n
  | .vint _, _ => true
  | _, .vint _ => false
  | .vstr s, .vstr t => s ≤ t

/-- Lexicographic order on primary-key tuples, modelling
`ORDER BY pk1, pk2, ...`. -/
def keysLe : List Value → List Value → Bool
  | [], _ => true
  | _ :: _, [] => false
  | a :: as, b :: bs => if a = b then keysLe as bs else valueLe a b

/-- The tuple of a row's values at the primary-key columns (database rows
always carry every column; `Value.vnull` is the inert default for a key
name absent from the model record). -/
def rowKey (pk : List String) (r : Record) : List Value :=
  pk.map (fun k => (rowLookup r k).getD .vnull)

/-- The row order used by `session.query(table).order_by(*primary_key)`
on line 282 of `load.py`. -/
def rowOrder (pk : List String) (a b : Record) : Prop :=
  keysLe (rowKey pk a) (rowKey pk b) = true

instance (pk : List String) : DecidableRel (rowOrder pk) := by
  intro a b
  unfold rowOrder
  infer_instance

/-- The ascending-primary-key fetch of line 282: the stored rows sorted
by their key tuples. -/
def sortRows (pk : List String) (rows : List Record) : List Record :=
  List.insertionSort (rowOrder pk) rows

/-- Lines 283-296: one output line for a row — every column's value
pushed through the dump-direction codec, in column order. -/
def encodeRow (columns : List String) (r : Record) : List String :=
  columns.map (fun c => encodeValue ((rowLookup r c).getD .vnull))

/-- A table as the dumper sees it: name, column names in table order, the
primary-key column names, and the stored rows (in whatever order the
database happens to keep them). -/
structure DumpTable where
  name : String
  columns : List String
  primaryKey : List String
  rows : List Record
deriving Repr

/-- Lines 276-298: one table's dump — the header line of column names,
then one encoded line per row in ascending primary-key order. -/
def dumpTable (t : DumpTable) : List (List String) :=
  t.columns :: (sortRows t.primaryKey t.rows).map (encodeRow t.columns)

/-- `dump` (lines 238-300): select table names by the same wildcard
rules, sort them lexicographically (`table_names.sort()`, line 269), and
emit each table's dump in that order. -/
def dump (db : List DumpTable) (patterns : List String) :
    List (String × List (List String)) :=
  let names := selectTableNames patterns (db.map (fun t => t.name))
  let sortedNames := List.insertionSort (fun a b : String => a ≤ b) names
  sortedNames.map (fun n =>
    (n, match db.find? (fun t => t.name == n) with
        | some t => dumpTable t
        | none => []))

/-! ## Helper lemmas -/

/-- `pushRow` never touches the deferred list. -/
theorem pushRow_deferredRows (st : LoadState) (rd : Record) :
    (pushRow st rd).deferredRows = st.deferredRows := by
  unfold pushRow insertAndCommit
  dsimp only
  split <;> rfl

/-- `pushRow` never touches the seen set. -/
theorem pushRow_seenIds (st : LoadState) (rd : Record) :
    (pushRow st rd).seenIds = st.seenIds := by
  unfold pushRow insertAndCommit
  dsimp only
  split <;> rfl

/-- `markSeen` only touches the seen set. -/
theorem markSeen_deferredRows (st : LoadState) (i : Value) :
    (markSeen st i).deferredRows = st.deferredRows := by
  unfold markSeen
  split <;> rfl

/-- Marking a key seen makes it a member of the seen set. -/
theorem mem_markSeen (st : LoadState) (i : Value) : i ∈ (markSeen st i).seenIds := by
  unfold markSeen
  split
  · assumption
  · simp

/-- A nonempty list of self-referential columns is not `isEmpty`. -/
theorem isEmpty_eq_false_of_ne_nil {α : Type} {l : List α} (h : l ≠ []) :
    l.isEmpty = false := by
  cases l with
  | nil => exact absurd rfl h
  | cons a l => rfl

/-- `filterMap` with an always-`none` function drops everything. -/
theorem filterMap_const_none {α β : Type} (l : List α) :
    l.filterMap (fun _ => (none : Option β)) = [] := by
  induction l with
  | nil => rfl
  | cons a l ih => simp [List.filterMap_cons, ih]

/-- `filterMap` with an always-`some` function is a `map`. -/
theorem filterMap_some_comp {α β : Type} (f : α → β) (l : List α) :
    l.filterMap (fun a => some (f a)) = l.map f := by
  induction l with
  | nil => rfl
  | cons a l ih => simpa [List.filterMap_cons] using ih

/-! ## C5 -/

/-- C5: for every selected subset of tables (and any topological sort of
it), the drop sequence emitted when dropping is requested is exactly the
reverse of the creation sequence, the creation sequence equals the
data-load sequence, and nothing is dropped when dropping is not
requested. -/
theorem drop_order_reverse_of_load_order
    (sortTables : List TableDef → List TableDef)
    (allTables : List TableDef) (patterns : List String) :
    droppedNames (loadActions sortTables allTables patterns true)
      = (createdNames (loadActions sortTables allTables patterns true)).reverse
    ∧ createdNames (loadActions sortTables allTables patterns true)
      = loadedNames (loadActions sortTables allTables patterns true)
    ∧ droppedNames (loadActions sortTables allTables patterns false) = [] := by
  refine ⟨?_, ?_, ?_⟩ <;>
    simp [droppedNames, createdNames, loadedNames, loadActions,
      List.filterMap_append, List.filterMap_map, Function.comp_def,
      filterMap_const_none, filterMap_some_comp]

/-! ## C8 -/

/-- C8: a selected table whose source file is absent is skipped without
an error: its status token is `missing?`, no insert of any kind is
recorded for it, and the load continues with the remaining tables
exactly as it would have run on them alone. -/
theorem missing_file_skipped
    (files : String → Option (List (List String))) (t : TableDef) (ts : List TableDef)
    (h : files t.name = none) :
    loadTableFile files t = .ok (.missing, initState)
    ∧ statusToken .missing = "missing?"
    ∧ initState.flushes = [] ∧ initState.singleInserts = [] ∧ initState.newRows = []
    ∧ loadAllData files (t :: ts)
        = (match loadAllData files ts with
           | .error e => .error e
           | .ok rest => .ok ((t.name, TableStatus.missing, initState) :: rest)) := by
  refine ⟨?_, rfl, rfl, rfl, rfl, ?_⟩ <;>
    simp [loadAllData, loadTableFile, h]

/-- Witness for C8 at a concrete one-table load with no files present. -/
theorem missing_file_skipped_witness :
    loadAllData (fun _ => none) [⟨"abilities", []⟩]
      = .ok [("abilities", TableStatus.missing, initState)] := by
  have h := missing_file_skipped (fun _ => none) ⟨"abilities", []⟩ [] rfl
  rw [h.2.2.2.2.2]
  rfl

/-! ## C10 -/

/-- C10: the dependency set is the *truthy*-filtered list of
self-referential foreign-key values, so a record whose self-referential
columns hold only falsy values — `0`, the empty string, `False` or
`None` — is treated as having no self-reference: its key is marked seen,
it is buffered immediately, and it is never deferred, whatever the
current seen set is. -/
theorem falsy_foreign_key_not_deferred
    (cols : List Column) (st : LoadState) (rd : Record) (vals : List Value) (i : Value)
    (hsr : selfRefColumns cols ≠ [])
    (hf : fetchForeignIds (selfRefColumns cols) rd = .ok vals)
    (hfalsy : ∀ v ∈ vals, truthy v = false)
    (hid : rowLookup rd "id" = some i) :
    vals.filter truthy = []
    ∧ processRow cols st rd = .ok (pushRow (markSeen st i) rd)
    ∧ (pushRow (markSeen st i) rd).deferredRows = st.deferredRows
    ∧ i ∈ (pushRow (markSeen st i) rd).seenIds
    ∧ truthy (.vint 0) = false ∧ truthy (.vstr "") = false
    ∧ truthy (.vbool false) = false ∧ truthy .vnull = false := by
  have hfilter : vals.filter truthy = [] := by
    rw [List.filter_eq_nil_iff]
    intro v hv
    simp [hfalsy v hv]
  refine ⟨hfilter, ?_, ?_, ?_, rfl, rfl, rfl, rfl⟩
  · simp [processRow, isEmpty_eq_false_of_ne_nil hsr, hf, hfilter, hid]
  · rw [pushRow_deferredRows, markSeen_deferredRows]
  · rw [pushRow_seenIds]
    exact mem_markSeen st i

/-- Witness for C10: a record whose self-referential `parent` column
holds the integer `0`, with nothing seen yet, is enqueued and seen. -/
theorem falsy_foreign_key_not_deferred_witness :
    processRow [⟨"id", false, false, false⟩, ⟨"parent", false, false, true⟩] initState
        [("id", Value.vstr "3"), ("parent", Value.vint 0)]
      = .ok (pushRow (markSeen initState (Value.vstr "3"))
              [("id", Value.vstr "3"), ("parent", Value.vint 0)]) :=
  (falsy_foreign_key_not_deferred
    [⟨"id", false, false, false⟩, ⟨"parent", false, false, true⟩]
    initState
    [("id", Value.vstr "3"), ("parent", Value.vint 0)]
    [Value.vint 0] (Value.vstr "3")
    (by decide) rfl (by decide) rfl).2.1

/-! ## C1 -/

/-- C1 as stated is false on the code: here the set of non-NULL values in
the record's self-referential column is `[""]` — nonempty, and not
contained in the (empty) seen set — so the claim requires the record to
be deferred, left unseen and unenqueued; but the code filters by
truthiness, drops `""`, and takes the first action: the record's key is
marked seen, the record is enqueued, and nothing is deferred. -/
theorem resolver_nonnull_counterexample :
    fetchForeignIds
        (selfRefColumns [⟨"id", false, false, false⟩, ⟨"parent", false, false, true⟩])
        [("id", Value.vstr "7"), ("parent", Value.vstr "")]
      = Except.ok [Value.vstr ""]
    ∧ List.filter (fun v => decide (v ≠ Value.vnull)) [Value.vstr ""] = [Value.vstr ""]
    ∧ ¬ (Value.vstr "" ∈ initState.seenIds)
    ∧ processRow [⟨"id", false, false, false⟩, ⟨"parent", false, false, true⟩] initState
        [("id", Value.vstr "7"), ("parent", Value.vstr "")]
      = Except.ok
          { deferredRows := [], seenIds := [Value.vstr "7"],
            newRows := [[("id", Value.vstr "7"), ("parent", Value.vstr "")]],
            flushes := [], singleInserts := [] } := by
  refine ⟨rfl, by decide, ?_, rfl⟩
  simp [initState]

/-- C1 (amended): for every record of a self-referential table the
resolver takes exactly one of three actions based on the set of *truthy*
values (non-null, non-false, nonzero, nonempty) in the record's
self-referential foreign-key columns: an empty set marks the key seen and
enqueues into the current batch; a set fully contained in the seen keys
first flushes and commits the current batch, then marks the key seen and
enqueues into the new (fresh) batch; otherwise the record and its
unresolved key set go to the deferred list, the key is not marked seen
and the record is not enqueued. -/
theorem resolver_trichotomy
    (cols : List Column) (st : LoadState) (rd : Record) (vals : List Value) (i : Value)
    (hsr : selfRefColumns cols ≠ [])
    (hf : fetchForeignIds (selfRefColumns cols) rd = .ok vals)
    (hid : rowLookup rd "id" = some i) :
    (vals.filter truthy = [] →
      processRow cols st rd = .ok (pushRow (markSeen st i) rd))
    ∧ (vals.filter truthy ≠ [] → (∀ v ∈ vals.filter truthy, v ∈ st.seenIds) →
      processRow cols st rd = .ok (pushRow (markSeen (insertAndCommit st) i) rd)
      ∧ (markSeen (insertAndCommit st) i).flushes = st.flushes ++ [st.newRows]
      ∧ (pushRow (markSeen (insertAndCommit st) i) rd).newRows = [rd])
    ∧ (vals.filter truthy ≠ [] → ¬ (∀ v ∈ vals.filter truthy, v ∈ st.seenIds) →
      processRow cols st rd
        = .ok { st with deferredRows := st.deferredRows ++ [(rd, vals.filter truthy)] }) := by
  refine ⟨?_, ?_, ?_⟩
  · intro hemp
    simp [processRow, isEmpty_eq_false_of_ne_nil hsr, hf, hemp, hid]
  · intro hne hall
    have hallb : (vals.filter truthy).all (fun v => decide (v ∈ st.seenIds)) = true := by
      rw [List.all_eq_true]
      intro v hv
      exact decide_eq_true (hall v hv)
    refine ⟨?_, ?_, ?_⟩
    · simp [processRow, isEmpty_eq_false_of_ne_nil hsr, hf,
        isEmpty_eq_false_of_ne_nil hne, hallb, hid]
    · unfold markSeen insertAndCommit
      split <;> rfl
    · have h0 : (markSeen (insertAndCommit st) i).newRows = [] := by
        unfold markSeen insertAndCommit
        split <;> rfl
      unfold pushRow
      rw [h0]
      rfl
  · intro hne hnall
    have hallb : (vals.filter truthy).all (fun v => decide (v ∈ st.seenIds)) = false := by
      rw [← Bool.not_eq_true, List.all_eq_true]
      intro hc
      exact hnall (fun v hv => of_decide_eq_true (hc v hv))
    simp [processRow, isEmpty_eq_false_of_ne_nil hsr, hf,
      isEmpty_eq_false_of_ne_nil hne, hallb]

/-- Witness for C1 (amended), exercising the flush-first branch: the
record with id 2 refers to the already-seen key 1, so the current batch
is flushed and committed and the record starts a new batch. -/
theorem resolver_trichotomy_witness :
    processRow [⟨"id", false, false, false⟩, ⟨"parent", true, false, true⟩]
        { deferredRows := [], seenIds := [Value.vstr "1"],
          newRows := [[("id", Value.vstr "1"), ("parent", Value.vnull)]],
          flushes := [], singleInserts := [] }
        [("id", Value.vstr "2"), ("parent", Value.vstr "1")]
      = .ok (pushRow
          (markSeen
            (insertAndCommit
              { deferredRows := [], seenIds := [Value.vstr "1"],
                newRows := [[("id", Value.vstr "1"), ("parent", Value.vnull)]],
                flushes := [], singleInserts := [] })
            (Value.vstr "2"))
          [("id", Value.vstr "2"), ("parent", Value.vstr "1")]) :=
  ((resolver_trichotomy
    [⟨"id", false, false, false⟩, ⟨"parent", true, false, true⟩]
    { deferredRows := [], seenIds := [Value.vstr "1"],
      newRows := [[("id", Value.vstr "1"), ("parent", Value.vnull)]],
      flushes := [], singleInserts := [] }
    [("id", Value.vstr "2"), ("parent", Value.vstr "1")]
    [Value.vstr "1"] (Value.vstr "2")
    (by decide) rfl rfl).2.1 (by decide) (by decide)).1

/-! ## C2 -/

/-- C2 meets a code bug: on the spec's own scenario
`[(id 1, parent NULL), (id 2, parent 1), (id 3, parent 5)]` with no row
5, ids 1 and 2 are indeed committed (two flushes), id 3 is deferred, and
the replay pass then fails — but line 226 of `load.py` builds the
intended `ValueError` message from `str(row)` where no variable `row`
exists in `load` (the record is held in `row_data`), so the load raises
`NameError: global name 'row' is not defined`, which does not identify
the offending record. -/
theorem unresolved_selfref_raises_name_error :
    loadTable [⟨"id", false, false, false⟩, ⟨"parent", true, false, true⟩]
        [["id", "parent"], ["1", ""], ["2", "1"], ["3", "5"]]
      = Except.error (LoadErr.nameError "row",
          { deferredRows :=
              [([("id", Value.vstr "3"), ("parent", Value.vstr "5")], [Value.vstr "5"])],
            seenIds := [Value.vstr "1", Value.vstr "2"],
            newRows := [],
            flushes := [[[("id", Value.vstr "1"), ("parent", Value.vnull)]],
                        [[("id", Value.vstr "2"), ("parent", Value.vstr "1")]]],
            singleInserts := [] }) := rfl

/-! ## C4 -/

/-- C4 as stated is false on the code at one point: the empty string is
an "other value" that does not round-trip through text in a nullable
column — it encodes to empty text, which the load direction turns into
NULL, exactly as the claim's own null rule says. -/
theorem codec_empty_string_counterexample :
    decodeValue ⟨"name", true, false, false⟩ (encodeValue (Value.vstr "")) = Value.vnull
    ∧ Value.vnull ≠ Value.vstr "" :=
  ⟨rfl, by decide⟩

/-- C4 (amended): the codec round-trips for every supported value except
the empty string in a nullable column: NULL in a nullable column encodes
to empty text and empty text in a nullable column decodes to NULL;
boolean `false` encodes to `"0"` and `true` to `"1"`, and on load, in a
boolean column not hit by the nullable-empty rule, `"0"` decodes to
`false` and anything else to `true`; every other string value
round-trips through UTF-8 text — except the empty string in a nullable
column, which encodes to empty text and decodes back to NULL. -/
theorem codec_roundtrip_amended :
    (∀ c : Column, c.nullable = true → decodeValue c (encodeValue .vnull) = .vnull)
    ∧ (∀ c : Column, c.isBool = true →
        ∀ b : Bool, decodeValue c (encodeValue (.vbool b)) = .vbool b)
    ∧ (∀ c : Column, c.isBool = false → ∀ s : String, (c.nullable = true → s ≠ "") →
        decodeValue c (encodeValue (.vstr s)) = .vstr s)
    ∧ encodeValue (.vbool false) = "0" ∧ encodeValue (.vbool true) = "1"
    ∧ (∀ c : Column, c.isBool = true → ∀ s : String, ¬ (c.nullable = true ∧ s = "") →
        decodeValue c s = (if s = "0" then .vbool false else .vbool true))
    ∧ (∀ c : Column, c.nullable = true → decodeValue c "" = .vnull)
    ∧ (∀ c : Column, c.nullable = true → c.isBool = false →
        decodeValue c (encodeValue (.vstr "")) = .vnull) := by
  refine ⟨?_, ?_, ?_, rfl, rfl, ?_, ?_, ?_⟩
  · intro c h
    simp [decodeValue, encodeValue, h]
  · intro c h b
    cases b <;> simp [decodeValue, encodeValue, h]
  · intro c hb s hs
    have h1 : (c.nullable && s == "") = false := by
      cases hn : c.nullable
      · rfl
      · simp [hs hn]
    simp only [encodeValue, decodeValue, h1, hb]
    simp
  · intro c hb s hs
    have h1 : (c.nullable && s == "") = false := by
      cases hn : c.nullable
      · rfl
      · have hne : s ≠ "" := fun he => hs ⟨hn, he⟩
        simp [hne]
    simp [decodeValue, h1, hb]
  · intro c h
    simp [decodeValue, h]
  · intro c hn hb
    simp [decodeValue, encodeValue, hn]

/-- Witness for C4 (amended) at non-ASCII text, NULL, and booleans. -/
theorem codec_roundtrip_amended_witness :
    decodeValue ⟨"identifier", true, false, false⟩
        (encodeValue (Value.vstr "ポケモン")) = Value.vstr "ポケモン"
    ∧ decodeValue ⟨"identifier", true, false, false⟩ (encodeValue Value.vnull) = Value.vnull
    ∧ decodeValue ⟨"is_default", false, true, false⟩ (encodeValue (Value.vbool false))
        = Value.vbool false
    ∧ decodeValue ⟨"is_default", false, true, false⟩ (encodeValue (Value.vbool true))
        = Value.vbool true :=
  ⟨codec_roundtrip_amended.2.2.1 ⟨"identifier", true, false, false⟩ rfl "ポケモン"
      (fun _ => by decide),
   codec_roundtrip_amended.1 ⟨"identifier", true, false, false⟩ rfl,
   codec_roundtrip_amended.2.1 ⟨"is_default", false, true, false⟩ rfl false,
   codec_roundtrip_amended.2.1 ⟨"is_default", false, true, false⟩ rfl true⟩

/-! ## C6 -/

/-- C6 as stated is false on the code for one input: the empty selector
list selects every table name even though no name matches any pattern
(there are none) — `if tables:` treats an empty list as "select all". -/
theorem selection_empty_pattern_counterexample :
    selectTableNames [] ["pokemon"] = ["pokemon"]
    ∧ matchesAnyPattern [] "pokemon" = false :=
  ⟨rfl, rfl⟩

/-- C6 (amended): for every *nonempty* list of selector patterns, each
pattern is translated by mapping `*` to `.*`, `?` to `.?` and every
other character to an escaped literal; a pattern containing a dot or a
path separator is first cut down to its base name with the extension
stripped; and a table name is selected iff it is a known name and the
translated form of at least one pattern fully matches it,
case-sensitively (an empty selector list instead selects every table). -/
theorem selection_wildcard_semantics
    (patterns : List String) (names : List String) (n : String)
    (hne : patterns ≠ []) :
    (n ∈ selectTableNames patterns names ↔
      n ∈ names ∧ ∃ p ∈ patterns, rmatch (wildcardGlobToRegex p) n.toList = true)
    ∧ wildcardCharToRegex '*' = .anyStar
    ∧ wildcardCharToRegex '?' = .anyOpt
    ∧ (∀ c : Char, c ≠ '*' → c ≠ '?' → wildcardCharToRegex c = .lit c)
    ∧ (∀ p : String, (p.toList.contains '.' || p.toList.contains '/') = true →
        wildcardGlobToRegex p = (splitExtRoot (baseName p)).toList.map wildcardCharToRegex)
    ∧ (∀ p : String, (p.toList.contains '.' || p.toList.contains '/') = false →
        wildcardGlobToRegex p = p.toList.map wildcardCharToRegex) := by
  refine ⟨?_, rfl, rfl, ?_, ?_, ?_⟩
  · rw [selectTableNames, if_neg (by simp [hne])]
    simp [List.mem_filter, matchesAnyPattern, List.any_eq_true]
  · intro c h1 h2
    simp [wildcardCharToRegex, h1, h2]
  · intro p h
    rw [wildcardGlobToRegex]
    simp only [h]
    rfl
  · intro p h
    rw [wildcardGlobToRegex]
    simp only [h]
    rfl

/-- Witness for C6 (amended): `pokemon_*` selects `pokemon_forms` among
the known names, a filename-like pattern selects its base name, and the
match is case-sensitive. -/
theorem selection_wildcard_semantics_witness :
    ("pokemon_forms" ∈
      selectTableNames ["pokemon_*", "data/csv/items.csv"]
        ["items", "pokemon_forms", "Pokemon_housES"]
      ↔ ("pokemon_forms" ∈ ["items", "pokemon_forms", "Pokemon_housES"]
         ∧ ∃ p ∈ ["pokemon_*", "data/csv/items.csv"],
             rmatch (wildcardGlobToRegex p) "pokemon_forms".toList = true)) :=
  (selection_wildcard_semantics ["pokemon_*", "data/csv/items.csv"]
    ["items", "pokemon_forms", "Pokemon_housES"] "pokemon_forms" (by decide)).1

/-! ## C9 -/

/-- Dict assignment with a key absent from the dict appends the binding. -/
theorem dictInsert_fresh (rd : Record) (k : String) (v : Value)
    (h : ∀ q ∈ rd, q.1 ≠ k) : dictInsert rd k v = rd ++ [(k, v)] := by
  unfold dictInsert
  rw [if_neg]
  intro hc
  rw [List.any_eq_true] at hc
  obtain ⟨p, hp, he⟩ := hc
  exact h p hp (by simpa using he)

/-- With pairwise-distinct column names, looking a column's own name up
in the table yields that column. -/
theorem findColumn_self : ∀ (cols : List Column), (cols.map Column.name).Nodup →
    ∀ c ∈ cols, findColumn cols c.name = some c := by
  intro cols
  induction cols with
  | nil =>
    intro _ c hc
    simp at hc
  | cons d ds ih =>
    intro hnodup c hc
    rw [List.map_cons, List.nodup_cons] at hnodup
    rcases List.mem_cons.mp hc with rfl | hmem
    · simp [findColumn]
    · have hne : (d.name == c.name) = false := by
        have : d.name ≠ c.name := by
          intro he
          exact hnodup.1 (he ▸ List.mem_map_of_mem Column.name hmem)
        simpa using this
      simp only [findColumn, List.find?_cons, hne]
      exact ih hnodup.2 c hmem

/-- The zip loop over fresh, pairwise-distinct column names resolves each
name to its column and appends one decoded binding per pair. -/
theorem buildRowData_zip (cols : List Column) : ∀ (cs : List Column), ∀ (vs : List String),
    ∀ (rd : Record),
    vs.length = cs.length →
    (∀ c ∈ cs, findColumn cols c.name = some c) →
    ((cs.map Column.name).Nodup) →
    (∀ c ∈ cs, ∀ q ∈ rd, q.1 ≠ c.name) →
    buildRowData cols rd ((cs.map Column.name).zip vs)
      = .ok (rd ++ (cs.zip vs).map (fun p => (p.1.name, decodeValue p.1 p.2))) := by
  intro cs
  induction cs with
  | nil =>
    intro vs rd _ _ _ _
    simp [buildRowData]
  | cons c cs' ih =>
    intro vs rd hlen hfind hnodup hfresh
    cases vs with
    | nil => simp at hlen
    | cons v vs' =>
      have hfc : findColumn cols c.name = some c := hfind c (List.mem_cons_self c cs')
      have hfr : ∀ q ∈ rd, q.1 ≠ c.name :=
        fun q hq => hfresh c (List.mem_cons_self c cs') q hq
      rw [List.map_cons, List.nodup_cons] at hnodup
      show buildRowData cols rd ((c.name, v) :: (List.map Column.name cs').zip vs')
          = Except.ok (rd ++
              ((c, v) :: cs'.zip vs').map (fun p => (p.1.name, decodeValue p.1 p.2)))
      simp only [buildRowData, hfc]
      rw [dictInsert_fresh rd c.name _ hfr]
      rw [ih vs' (rd ++ [(c.name, decodeValue c v)])
        (by simpa using hlen)
        (fun c' h => hfind c' (List.mem_cons_of_mem c h))
        hnodup.2
        ?_]
      · simp
      · intro c' hc' q hq
        rcases List.mem_append.mp hq with hq1 | hq2
        · exact hfresh c' (List.mem_cons_of_mem c hc') q hq1
        · have : q = (c.name, decodeValue c v) := by simpa using hq2
          subst this
          intro he
          apply hnodup.1
          have : c.name = c'.name := he
          rw [this]
          exact List.mem_map_of_mem Column.name hc'

/-- C9: for a header naming exactly the table's (pairwise-distinct)
columns and a line with one field per column, the constructed record is
exactly the list of one decoded binding per column, keyed by column
name, with exactly one value per column of the table (built fresh from
the empty dict). -/
theorem record_one_value_per_column
    (cols : List Column) (csvs : List String)
    (hnodup : (cols.map Column.name).Nodup)
    (hlen : csvs.length = cols.length) :
    buildRow cols (cols.map Column.name) csvs
      = .ok ((cols.zip csvs).map (fun p => (p.1.name, decodeValue p.1 p.2)))
    ∧ ((cols.zip csvs).map (fun p => (p.1.name, decodeValue p.1 p.2))).map Prod.fst
      = cols.map Column.name
    ∧ ((cols.zip csvs).map (fun p => (p.1.name, decodeValue p.1 p.2))).length
      = cols.length := by
  refine ⟨?_, ?_, ?_⟩
  · unfold buildRow
    rw [buildRowData_zip cols cols csvs [] hlen (findColumn_self cols hnodup) hnodup
      (fun c _ q hq => absurd hq (List.not_mem_nil q))]
    simp
  · rw [List.map_map]
    have : (Prod.fst ∘ fun p : Column × String => (p.1.name, decodeValue p.1 p.2))
        = Column.name ∘ Prod.fst := rfl
    rw [this, ← List.map_map]
    rw [List.map_fst_zip cols csvs hlen.ge]
  · rw [List.length_map, List.length_zip, hlen, min_self]

/-- Witness for C9 at a concrete two-column table and line. -/
theorem record_one_value_per_column_witness :
    buildRow [⟨"id", false, false, false⟩, ⟨"identifier", true, false, false⟩]
        ["id", "identifier"] ["1", "bulbasaur"]
      = .ok [("id", Value.vstr "1"), ("identifier", Value.vstr "bulbasaur")] :=
  (record_one_value_per_column
    [⟨"id", false, false, false⟩, ⟨"identifier", true, false, false⟩]
    ["1", "bulbasaur"] (by decide) rfl).1

/-! ## C3 -/

/-- The batch invariant: every committed bulk insert covered at most 1000
records, and the live buffer holds at most 999 (a fresh record can bring
it to 1000, which immediately triggers the threshold flush). -/
def flushesBounded (st : LoadState) : Prop :=
  (∀ b ∈ st.flushes, b.length ≤ 1000) ∧ st.newRows.length ≤ 999

/-- The fresh state satisfies the batch invariant. -/
theorem flushesBounded_initState : flushesBounded initState := by
  constructor
  · intro b hb
    simp [initState] at hb
  · simp [initState]

/-- `markSeen` keeps the batch invariant (it only touches the seen set). -/
theorem flushesBounded_markSeen (st : LoadState) (i : Value)
    (h : flushesBounded st) : flushesBounded (markSeen st i) := by
  unfold markSeen
  split
  · exact h
  · exact h

/-- A flush keeps the batch invariant: the flushed batch is the buffer,
which held at most 999 records. -/
theorem flushesBounded_insertAndCommit (st : LoadState)
    (h : flushesBounded st) : flushesBounded (insertAndCommit st) := by
  refine ⟨?_, by simp [insertAndCommit]⟩
  intro b hb
  rcases List.mem_append.mp hb with h1 | h2
  · exact h.1 b h1
  · have : b = st.newRows := by simpa using h2
    have h2 := h.2
    rw [this]
    omega

/-- Buffering one record keeps the batch invariant. -/
theorem flushesBounded_pushRow (st : LoadState) (rd : Record)
    (h : flushesBounded st) : flushesBounded (pushRow st rd) := by
  unfold pushRow
  dsimp only
  split
  · refine ⟨?_, by simp [insertAndCommit]⟩
    intro b hb
    simp only [insertAndCommit, List.mem_append] at hb
    rcases hb with h1 | h2
    · exact h.1 b h1
    · have : b = st.newRows ++ [rd] := by simpa using h2
      have h2 := h.2
      rw [this, List.length_append]
      simp only [List.length_cons, List.length_nil]
      omega
  · rename_i hlt
    simp only [not_le] at hlt
    exact ⟨h.1, by simp at hlt ⊢; omega⟩

/-- Every state a successful `processRow` returns keeps the batch
invariant. -/
theorem processRow_bounded (cols : List Column) (st : LoadState) (rd : Record)
    (h : flushesBounded st) :
    ∀ st', processRow cols st rd = .ok st' → flushesBounded st' := by
  intro st' hok
  unfold processRow at hok
  dsimp only at hok
  split at hok
  · cases hok
    exact flushesBounded_pushRow st rd h
  · split at hok
    · cases hok
    · split at hok
      · split at hok
        · cases hok
        · cases hok
          exact flushesBounded_pushRow _ rd (flushesBounded_markSeen _ _ h)
      · split at hok
        · split at hok
          · cases hok
          · cases hok
            exact flushesBounded_pushRow _ rd
              (flushesBounded_markSeen _ _ (flushesBounded_insertAndCommit st h))
        · cases hok
          exact ⟨h.1, h.2⟩

/-- Every state a successful `processLines` returns keeps the batch
invariant. -/
theorem processLines_bounded (cols : List Column) (header : List String) :
    ∀ (lines : List (List String)) (st : LoadState), flushesBounded st →
    ∀ st', processLines cols header st lines = .ok st' → flushesBounded st' := by
  intro lines
  induction lines with
  | nil =>
    intro st h st' hok
    cases hok
    exact h
  | cons line rest ih =>
    intro st h st' hok
    unfold processLines at hok
    split at hok
    · cases hok
    · rename_i rd hbr
      split at hok
      · cases hok
      · rename_i st1 hrow
        exact ih st1 (processRow_bounded cols st rd h st1 hrow) st' hok

/-- The replay pass never touches the batch buffer or the bulk-insert
history. -/
theorem replayDeferred_flushes :
    ∀ (pending : List (Record × List Value)) (st st' : LoadState),
    replayDeferred st pending = .ok st' →
    st'.flushes = st.flushes ∧ st'.newRows = st.newRows := by
  intro pending
  induction pending with
  | nil =>
    intro st st' hok
    cases hok
    exact ⟨rfl, rfl⟩
  | cons p rest ih =>
    intro st st' hok
    unfold replayDeferred at hok
    split at hok
    · cases hok
    · split at hok
      · cases hok
      · rename_i i _
        have h2 := ih _ st' hok
        unfold markSeen at h2
        split at h2
        · exact h2
        · exact h2

/-- One successful iteration of the record loop steps the fold. -/
theorem processLines_cons (cols : List Column) (header : List String) (st : LoadState)
    (line : List String) (rest : List (List String)) (rd : Record) (st1 : LoadState)
    (hbr : buildRow cols header line = .ok rd)
    (hrow : processRow cols st rd = .ok st1) :
    processLines cols header st (line :: rest) = processLines cols header st1 rest := by
  conv_lhs => rw [processLines]
  rw [hbr]
  dsimp only
  rw [hrow]

/-- Loading `n` copies of one plain line (no self-referential columns)
from a buffer of at most 999 records produces `⌊(buffer + n) / 1000⌋`
bulk inserts of exactly 1000 records each and leaves
`(buffer + n) mod 1000` records buffered; nothing is deferred. -/
theorem processLines_plain (cols : List Column) (header line : List String) (rd : Record)
    (hsr : selfRefColumns cols = [])
    (hbr : buildRow cols header line = .ok rd) :
    ∀ (n : Nat) (st : LoadState), st.newRows.length ≤ 999 →
    ∃ st', processLines cols header st (List.replicate n line) = .ok st'
      ∧ st'.flushes.map List.length
          = st.flushes.map List.length
            ++ List.replicate ((st.newRows.length + n) / 1000) 1000
      ∧ st'.newRows.length = (st.newRows.length + n) % 1000
      ∧ st'.deferredRows = st.deferredRows := by
  intro n
  induction n with
  | zero =>
    intro st hb
    refine ⟨st, by simp [processLines], ?_, by omega, rfl⟩
    rw [Nat.add_zero, Nat.div_eq_of_lt (by omega)]
    simp
  | succ n ih =>
    intro st hb
    have hstep : processRow cols st rd = .ok (pushRow st rd) := by
      simp [processRow, hsr]
    have hunf : processLines cols header st (List.replicate (n + 1) line)
        = processLines cols header (pushRow st rd) (List.replicate n line) := by
      rw [List.replicate_succ]
      exact processLines_cons cols header st line (List.replicate n line) rd
        (pushRow st rd) hbr hstep
    by_cases hc : st.newRows.length = 999
    · have hpush : pushRow st rd
          = ⟨st.deferredRows, st.seenIds, [], st.flushes ++ [st.newRows ++ [rd]],
             st.singleInserts⟩ := by
        unfold pushRow insertAndCommit
        dsimp only
        rw [if_pos (by simp [hc])]
      have hnr : (pushRow st rd).newRows.length = 0 := by
        rw [hpush]
        rfl
      have hfl : (pushRow st rd).flushes = st.flushes ++ [st.newRows ++ [rd]] := by
        rw [hpush]
      have hdf : (pushRow st rd).deferredRows = st.deferredRows := by rw [hpush]
      obtain ⟨st', h1, h2, h3, h4⟩ := ih (pushRow st rd) (by omega)
      rw [hnr, hfl] at h2
      rw [hnr] at h3
      rw [hdf] at h4
      refine ⟨st', hunf ▸ h1, ?_, ?_, h4⟩
      · rw [h2, List.map_append]
        simp only [List.map_cons, List.map_nil, List.length_append, List.length_cons,
          List.length_nil, hc]
        rw [List.append_assoc, List.singleton_append]
        have hd : (999 + (n + 1)) / 1000 = n / 1000 + 1 := by omega
        rw [hd, List.replicate_succ]
        norm_num
      · rw [h3]
        omega
    · have hpush : pushRow st rd = { st with newRows := st.newRows ++ [rd] } := by
        unfold pushRow
        dsimp only
        rw [if_neg (by simp; omega)]
      have hnr : (pushRow st rd).newRows.length = st.newRows.length + 1 := by
        rw [hpush]
        simp
      have hfl : (pushRow st rd).flushes = st.flushes := by rw [hpush]
      have hdf : (pushRow st rd).deferredRows = st.deferredRows := by rw [hpush]
      obtain ⟨st', h1, h2, h3, h4⟩ := ih (pushRow st rd) (by omega)
      rw [hnr, hfl] at h2
      rw [hnr] at h3
      rw [hdf] at h4
      have he : st.newRows.length + 1 + n = st.newRows.length + (n + 1) := by omega
      rw [he] at h2 h3
      exact ⟨st', hunf ▸ h1, h2, h3, h4⟩

/-- C3: (a) every successfully loaded table has every bulk insert
covering at most 1000 records and finishes with a drained buffer;
(b) a flush is one bulk insert of the whole buffer, then a commit, then
an empty buffer; (c) loading 2500 plain rows produces exactly three bulk
inserts, of 1000, 1000 and 500 rows. -/
theorem batch_flush_bounds :
    (∀ (cols : List Column) (fileLines : List (List String)) (st' : LoadState),
        loadTable cols fileLines = .ok st' →
        (∀ b ∈ st'.flushes, b.length ≤ 1000) ∧ st'.newRows = [])
    ∧ (∀ st : LoadState, (insertAndCommit st).flushes = st.flushes ++ [st.newRows]
        ∧ (insertAndCommit st).newRows = [])
    ∧ (∃ stf : LoadState,
        loadTable [⟨"id", false, false, false⟩] (["id"] :: List.replicate 2500 ["7"])
          = .ok stf
        ∧ stf.flushes.map List.length = [1000, 1000, 500]) := by
  refine ⟨?_, fun st => ⟨rfl, rfl⟩, ?_⟩
  · intro cols fileLines st' hok
    unfold loadTable at hok
    split at hok
    · cases hok
    · rename_i header dataLines
      split at hok
      · cases hok
      · rename_i st1 hlines
        have hb1 : flushesBounded st1 :=
          processLines_bounded cols header dataLines initState flushesBounded_initState
            st1 hlines
        have hb2 : flushesBounded (insertAndCommit st1) :=
          flushesBounded_insertAndCommit st1 hb1
        have hrep := replayDeferred_flushes (insertAndCommit st1).deferredRows
          (insertAndCommit st1) st' hok
        constructor
        · intro b hb
          exact hb2.1 b (hrep.1 ▸ hb)
        · rw [hrep.2]
          rfl
  · have hbr : buildRow [⟨"id", false, false, false⟩] ["id"] ["7"]
        = .ok [("id", Value.vstr "7")] := rfl
    obtain ⟨st', h1, h2, h3, h4⟩ :=
      processLines_plain [⟨"id", false, false, false⟩] ["id"] ["7"]
        [("id", Value.vstr "7")] rfl hbr 2500 initState (by simp [initState])
    refine ⟨insertAndCommit st', ?_, ?_⟩
    · have hdef : (insertAndCommit st').deferredRows = [] := by
        show st'.deferredRows = []
        rw [h4]
        rfl
      unfold loadTable
      dsimp only
      rw [h1]
      dsimp only
      rw [hdef]
      rfl
    · have hflush : (insertAndCommit st').flushes = st'.flushes ++ [st'.newRows] := rfl
      rw [hflush, List.map_append, h2]
      simp only [List.map_cons, List.map_nil]
      rw [h3]
      decide

/-- Witness for C3 at a one-row table: the single flush is within bounds
and the buffer ends drained. -/
theorem batch_flush_bounds_witness :
    (∀ b ∈ ({ deferredRows := [], seenIds := [], newRows := [],
              flushes := [[[("id", Value.vstr "9")]]], singleInserts := [] }
            : LoadState).flushes,
        b.length ≤ 1000)
    ∧ ({ deferredRows := [], seenIds := [], newRows := [],
         flushes := [[[("id", Value.vstr "9")]]], singleInserts := [] }
        : LoadState).newRows = [] :=
  batch_flush_bounds.1 [⟨"id", false, false, false⟩] [["id"], ["9"]] _ rfl

/-! ## C7 -/

/-- `valueLe` is total. -/
theorem valueLe_total (a b : Value) : valueLe a b = true ∨ valueLe b a = true := by
  cases a <;> cases b <;> simp [valueLe]
  · rename_i x y
    cases x <;> cases y <;> simp
  · rename_i m n
    omega
  · rename_i s t
    exact le_total s.data t.data

/-- `valueLe` is transitive. -/
theorem valueLe_trans (a b c : Value) (h1 : valueLe a b = true) (h2 : valueLe b c = true) :
    valueLe a c = true := by
  cases a <;> cases b <;> cases c <;> simp_all [valueLe]
  · rename_i x y z
    cases x <;> cases y <;> cases z <;> simp_all
  · omega
  · rename_i s t u
    exact le_trans h1 h2

/-- `valueLe` is antisymmetric. -/
theorem valueLe_antisymm (a b : Value) (h1 : valueLe a b = true) (h2 : valueLe b a = true) :
    a = b := by
  cases a <;> cases b <;> simp_all [valueLe]
  · rename_i x y
    cases x <;> cases y <;> simp_all
  · omega
  · rename_i s t
    obtain ⟨sl⟩ := s
    obtain ⟨tl⟩ := t
    simp_all
    exact congrArg String.mk (le_antisymm h1 h2)

/-- `keysLe` is total. -/
theorem keysLe_total : ∀ (k1 k2 : List Value), keysLe k1 k2 = true ∨ keysLe k2 k1 = true := by
  intro k1
  induction k1 with
  | nil =>
    intro k2
    left
    rfl
  | cons a as ih =>
    intro k2
    cases k2 with
    | nil =>
      right
      rfl
    | cons b bs =>
      by_cases hab : a = b
      · subst hab
        simp only [keysLe, if_pos rfl]
        exact ih bs
      · have hba : ¬ b = a := fun h => hab h.symm
        simp only [keysLe, if_neg hab, if_neg hba]
        exact valueLe_total a b

/-- `keysLe` is transitive. -/
theorem keysLe_trans : ∀ (k1 k2 k3 : List Value),
    keysLe k1 k2 = true → keysLe k2 k3 = true → keysLe k1 k3 = true := by
  intro k1
  induction k1 with
  | nil =>
    intro k2 k3 _ _
    rfl
  | cons a as ih =>
    intro k2 k3 h1 h2
    cases k2 with
    | nil => simp [keysLe] at h1
    | cons b bs =>
      cases k3 with
      | nil => simp [keysLe] at h2
      | cons c cs =>
        by_cases hab : a = b <;> by_cases hbc : b = c
        · subst hab hbc
          simp [keysLe] at h1 h2 ⊢
          exact ih bs cs h1 h2
        · subst hab
          simp only [keysLe, if_neg hbc] at h2 ⊢
          exact h2
        · subst hbc
          simp only [keysLe, if_neg hab] at h1 ⊢
          exact h1
        · simp only [keysLe, if_neg hab, if_neg hbc] at h1 h2
          by_cases hac : a = c
          · subst hac
            exact absurd (valueLe_antisymm a b h1 h2) hab
          · simp only [keysLe, if_neg hac]
            exact valueLe_trans a b c h1 h2

/-- `keysLe` is antisymmetric. -/
theorem keysLe_antisymm : ∀ (k1 k2 : List Value),
    keysLe k1 k2 = true → keysLe k2 k1 = true → k1 = k2 := by
  intro k1
  induction k1 with
  | nil =>
    intro k2 _ h2
    cases k2 with
    | nil => rfl
    | cons b bs => simp [keysLe] at h2
  | cons a as ih =>
    intro k2 h1 h2
    cases k2 with
    | nil => simp [keysLe] at h1
    | cons b bs =>
      by_cases hab : a = b
      · subst hab
        simp only [keysLe, if_pos rfl] at h1 h2
        rw [ih bs h1 h2]
      · have hba : ¬ b = a := fun h => hab h.symm
        simp only [keysLe, if_neg hab, if_neg hba] at h1 h2
        exact absurd (valueLe_antisymm a b h1 h2) hab

/-- Combine two pairwise facts pointwise. -/
theorem pairwise_and {α : Type} {R S : α → α → Prop} :
    ∀ {l : List α}, l.Pairwise R → l.Pairwise S →
      l.Pairwise (fun a b => R a b ∧ S a b) := by
  intro l
  induction l with
  | nil =>
    intro _ _
    exact List.Pairwise.nil
  | cons a l ih =>
    intro h1 h2
    rw [List.pairwise_cons] at h1 h2 ⊢
    exact ⟨fun b hb => ⟨h1.1 b hb, h2.1 b hb⟩, ih h1.2 h2.2⟩

/-- The strict version of the row order: the keys are ordered and
distinct. -/
def rowLt (pk : List String) (a b : Record) : Prop :=
  rowOrder pk a b ∧ rowKey pk a ≠ rowKey pk b

instance (pk : List String) : IsTotal Record (rowOrder pk) :=
  ⟨fun a b => keysLe_total (rowKey pk a) (rowKey pk b)⟩

instance (pk : List String) : IsTrans Record (rowOrder pk) :=
  ⟨fun _ _ _ h1 h2 => keysLe_trans _ _ _ h1 h2⟩

instance (pk : List String) : IsAntisymm Record (rowLt pk) :=
  ⟨fun _ _ h1 h2 => absurd (keysLe_antisymm _ _ h1.1 h2.1) h1.2⟩

/-- The fetched row order is sorted ascending by primary key. -/
theorem sortRows_sorted (pk : List String) (rows : List Record) :
    List.Sorted (rowOrder pk) (sortRows pk rows) :=
  List.sorted_insertionSort (rowOrder pk) rows

/-- The fetch is a permutation of the stored rows. -/
theorem sortRows_perm (pk : List String) (rows : List Record) :
    (sortRows pk rows).Perm rows :=
  List.perm_insertionSort (rowOrder pk) rows

/-- Determinism of the fetch: two storage enumerations of the same rows
with pairwise-distinct primary keys sort identically. -/
theorem sortRows_perm_eq (pk : List String) (rows rows' : List Record)
    (hperm : rows.Perm rows')
    (hnodup : (rows.map (rowKey pk)).Nodup) :
    sortRows pk rows = sortRows pk rows' := by
  have hperm2 : (sortRows pk rows).Perm (sortRows pk rows') :=
    (sortRows_perm pk rows).trans (hperm.trans (sortRows_perm pk rows').symm)
  have hn1 : ((sortRows pk rows).map (rowKey pk)).Nodup :=
    (((sortRows_perm pk rows).map (rowKey pk)).nodup_iff).mpr hnodup
  have hn2 : ((sortRows pk rows').map (rowKey pk)).Nodup :=
    (((sortRows_perm pk rows').map (rowKey pk)).nodup_iff).mpr
      ((hperm.map (rowKey pk)).nodup_iff.mp hnodup)
  have hp1 : (sortRows pk rows).Pairwise (rowLt pk) :=
    pairwise_and (sortRows_sorted pk rows) (List.pairwise_map.mp hn1)
  have hp2 : (sortRows pk rows').Pairwise (rowLt pk) :=
    pairwise_and (sortRows_sorted pk rows') (List.pairwise_map.mp hn2)
  exact List.eq_of_perm_of_sorted hperm2 hp1 hp2

/-- C7: `dump` emits tables in lexicographically sorted name order; each
emitted section is the header line of column names followed by the rows
in ascending primary-key order, each value encoded by the dump codec;
and the output is deterministic — it depends only on the table's
contents (any storage enumeration of the same rows with distinct primary
keys dumps identically, so dumping an unchanged database twice is
byte-identical). -/
theorem dump_sorted_deterministic :
    (∀ (db : List DumpTable) (patterns : List String),
        (dump db patterns).map Prod.fst
          = List.insertionSort (fun a b : String => a ≤ b)
              (selectTableNames patterns (db.map (fun t => t.name)))
        ∧ List.Sorted (fun a b : String => a ≤ b) ((dump db patterns).map Prod.fst))
    ∧ (∀ (db : List DumpTable) (patterns : List String) (n : String)
          (sec : List (List String)), (n, sec) ∈ dump db patterns →
        ∃ t ∈ db, t.name = n
          ∧ sec = t.columns :: (sortRows t.primaryKey t.rows).map (encodeRow t.columns))
    ∧ (∀ (pk : List String) (rows : List Record),
        List.Sorted (rowOrder pk) (sortRows pk rows))
    ∧ (∀ t t' : DumpTable, t.name = t'.name → t.columns = t'.columns →
        t.primaryKey = t'.primaryKey → t.rows.Perm t'.rows →
        (t.rows.map (rowKey t.primaryKey)).Nodup →
        dumpTable t = dumpTable t') := by
  have hfst : ∀ (db : List DumpTable) (patterns : List String),
      (dump db patterns).map Prod.fst
        = List.insertionSort (fun a b : String => a ≤ b)
            (selectTableNames patterns (db.map (fun t => t.name))) := by
    intro db patterns
    simp [dump, List.map_map, Function.comp_def]
  refine ⟨fun db patterns => ⟨hfst db patterns, ?_⟩, ?_, sortRows_sorted, ?_⟩
  · rw [hfst db patterns]
    exact List.sorted_insertionSort (fun a b : String => a ≤ b) _
  · intro db patterns n sec hmem
    unfold dump at hmem
    rw [List.mem_map] at hmem
    obtain ⟨m, hm, hgm⟩ := hmem
    have hn : m = n := congrArg Prod.fst hgm
    subst hn
    have hmem2 : m ∈ selectTableNames patterns (db.map (fun t => t.name)) :=
      ((List.perm_insertionSort _ _).mem_iff).mp hm
    have hnames : m ∈ db.map (fun t => t.name) := by
      unfold selectTableNames at hmem2
      split at hmem2
      · exact hmem2
      · exact (List.mem_filter.mp hmem2).1
    rw [List.mem_map] at hnames
    obtain ⟨t0, ht0, hname⟩ := hnames
    cases hf : db.find? (fun t => t.name == m) with
    | none =>
      rw [List.find?_eq_none] at hf
      exact absurd (by simp [hname]) (hf t0 ht0)
    | some t1 =>
      have ht1 : t1 ∈ db := List.mem_of_find?_eq_some hf
      have hname1 : t1.name = m := by
        have := List.find?_some hf
        simpa using this
      refine ⟨t1, ht1, hname1, ?_⟩
      have hsec : sec = (match db.find? (fun t => t.name == m) with
          | some t => dumpTable t
          | none => []) := (congrArg Prod.snd hgm).symm
      rw [hf] at hsec
      exact hsec
  · intro t t' h1 h2 h3 h4 h5
    have hr : sortRows t.primaryKey t.rows = sortRows t'.primaryKey t'.rows := by
      rw [← h3]
      exact sortRows_perm_eq t.primaryKey t.rows t'.rows h4 h5
    unfold dumpTable
    rw [h2, hr]

/-- Witness for C7: the same two-row table stored in two different
orders dumps identically. -/
theorem dump_sorted_deterministic_witness :
    dumpTable ⟨"species", ["id", "identifier"], ["id"],
        [[("id", Value.vint 2), ("identifier", Value.vstr "ivysaur")],
         [("id", Value.vint 1), ("identifier", Value.vstr "bulbasaur")]]⟩
      = dumpTable ⟨"species", ["id", "identifier"], ["id"],
        [[("id", Value.vint 1), ("identifier", Value.vstr "bulbasaur")],
         [("id", Value.vint 2), ("identifier", Value.vstr "ivysaur")]]⟩ :=
  dump_sorted_deterministic.2.2.2
    ⟨"species", ["id", "identifier"], ["id"],
        [[("id", Value.vint 2), ("identifier", Value.vstr "ivysaur")],
         [("id", Value.vint 1), ("identifier", Value.vstr "bulbasaur")]]⟩
    ⟨"species", ["id", "identifier"], ["id"],
        [[("id", Value.vint 1), ("identifier", Value.vstr "bulbasaur")],
         [("id", Value.vint 2), ("identifier", Value.vstr "ivysaur")]]⟩
    rfl rfl rfl (by decide) (by decide)
